import Mathlib

/-!
Verification development for the `Model` component of `gosdt-guesses`
(`src/libgosdt/src/model.cpp`): the binary decision-tree model, its
canonicalization (partitions / hash / equality), the binary-to-N-ary
document summarizer, and the feature-index translator.

Machine integers of width 64 (`size_t`) are modelled as `Nat` reduced
mod `2 ^ 64` where overflow can occur; `float` leaf statistics are
modelled as exact rationals `ℚ`; exceptions are modelled with `Except`.
-/

namespace Gosdt

/-- The external row-set collaborator (`Bitmask`). Modelled from the spec:
the dataset's bit-set type is not part of this component; the component
"only consumes their hash/equality/size/bit-test results", so a row-set is
modelled by its content (a list of bits) with content equality. -/
structure Bitmask where
  bits : List Bool
deriving DecidableEq, Repr

/-- Modelled from the spec: `Bitmask::hash`, an external deterministic
function of the row-set content returning a `size_t` (hence the reduction
mod `2 ^ 64`). The concrete mixing is irrelevant to this component, which
treats it as opaque. -/
def Bitmask.hash (b : Bitmask) : Nat :=
  (b.bits.foldl (fun a x => 2 * a + (if x then 1 else 0)) 1) % 2 ^ 64

/-- The tree model of `model.cpp`: a `terminal` node stores the leaf
statistics and the capture set; an internal node stores the binary split
feature, the original feature id and its two children (`negative`,
`positive`). This is the tagged-union reading of the single class with a
`terminal` flag. -/
inductive Model where
  | leaf (binary_target : Int) (lossVal complexityVal : ℚ) (capture_set : Bitmask)
  | split (binary_feature : Nat) (feature : Nat) (negative positive : Model)
deriving DecidableEq, Repr

/-- `Model::_partitions` (model.cpp:38-47): appends the leaf capture sets
to the accumulator vector, negative child first, then positive child. -/
def Model.partitionsAux : Model → List Bitmask → List Bitmask
  | .leaf _ _ _ c, addresses => addresses ++ [c]
  | .split _ _ n p, addresses => p.partitionsAux (n.partitionsAux addresses)

/-- `Model::partitions` (model.cpp:49-74): runs `_partitions` into a fresh
vector, then copies each address over unchanged (the sorting code is
commented out in the source). -/
def Model.partitions (m : Model) : List Bitmask :=
  let addresses := m.partitionsAux []
  addresses.foldl (fun sorted_addresses a => sorted_addresses ++ [a]) []

/-- The specification-side description of the partitions sequence: the leaf
capture sets visited by a depth-first traversal that always takes the
negative child before the positive child. -/
def Model.dfsLeaves : Model → List Bitmask
  | .leaf _ _ _ c => [c]
  | .split _ _ n p => n.dfsLeaves ++ p.dfsLeaves

/-- One step of the hash loop body of `Model::hash` (model.cpp:85):
`seed ^= hash + 0x9e3779b9 + (seed << 6) + (seed >> 2)` in `size_t`
arithmetic. -/
def hashCombine (seed h : Nat) : Nat :=
  seed ^^^ ((h + 0x9e3779b9 + (seed <<< 6) % 2 ^ 64 + seed >>> 2) % 2 ^ 64)

/-- `Model::hash` (model.cpp:76-89): the seed starts as the number of
partitions (a `size_t`) and each leaf row-set's own hash is folded in, in
traversal order. -/
def Model.hash (m : Model) : Nat :=
  let addresses := m.partitions
  addresses.foldl (fun seed a => hashCombine seed a.hash) (addresses.length % 2 ^ 64)

/-- The element-wise comparison loop of `Model::operator==`
(model.cpp:104-110): walks both sequences while neither is exhausted,
returning `false` at the first position whose row-sets differ. -/
def eqLoop : List Bitmask → List Bitmask → Bool
  | a :: as_, b :: bs => if a ≠ b then false else eqLoop as_ bs
  | _, _ => true

/-- `Model::operator==` (model.cpp:91-113): short-circuits on hash
inequality, then on a length mismatch of the two partitions sequences,
then compares element-wise. -/
def Model.beq (m other : Model) : Bool :=
  if m.hash ≠ other.hash then false
  else
    let masks := m.partitions
    let other_masks := other.partitions
    if masks.length ≠ other_masks.length then false
    else eqLoop masks other_masks

/-- `Model::loss` (model.cpp:115-122): a leaf returns its stored loss, an
internal node the sum of its children's losses (the C++ `float` is
modelled as an exact rational). -/
def Model.loss : Model → ℚ
  | .leaf _ l _ _ => l
  | .split _ _ n p => n.loss + p.loss

/-- `Model::complexity` (model.cpp:124-131): a leaf returns its stored
complexity, an internal node the sum of its children's complexities. -/
def Model.complexity : Model → ℚ
  | .leaf _ _ c _ => c
  | .split _ _ n p => n.complexity + p.complexity

/-- The leaf records (capture set, loss, complexity) in the same
depth-first negative-then-positive order as `partitions`. -/
def Model.leafData : Model → List (Bitmask × ℚ × ℚ)
  | .leaf _ l c cap => [(cap, l, c)]
  | .split _ _ n p => n.leafData ++ p.leafData

/-! ### Basic lemmas about the traversal -/

theorem partitionsAux_eq_append (m : Model) :
    ∀ acc : List Bitmask, m.partitionsAux acc = acc ++ m.dfsLeaves := by
  induction m with
  | leaf t l c cap => intro acc; rfl
  | split bf f n p ihn ihp =>
      intro acc
      simp [Model.partitionsAux, Model.dfsLeaves, ihn, ihp]

theorem foldl_append_copy (l : List Bitmask) :
    ∀ acc : List Bitmask, l.foldl (fun s a => s ++ [a]) acc = acc ++ l := by
  induction l with
  | nil => intro acc; simp
  | cons x xs ih => intro acc; simp [List.foldl, ih]

theorem partitions_eq_dfsLeaves (m : Model) : m.partitions = m.dfsLeaves := by
  simp [Model.partitions, partitionsAux_eq_append, foldl_append_copy]

theorem eqLoop_iff_eq :
    ∀ as_ bs : List Bitmask, as_.length = bs.length → (eqLoop as_ bs = true ↔ as_ = bs) := by
  intro as_
  induction as_ with
  | nil =>
      intro bs h
      cases bs with
      | nil => simp [eqLoop]
      | cons b bs => simp at h
  | cons a as_ ih =>
      intro bs h
      cases bs with
      | nil => simp at h
      | cons b bs =>
          simp only [List.length_cons, Nat.succ.injEq] at h
          by_cases hab : a = b
          · subst hab
            simp [eqLoop, ih bs h]
          · simp [eqLoop, hab]

theorem hash_congr {m₁ m₂ : Model} (h : m₁.partitions = m₂.partitions) :
    m₁.hash = m₂.hash := by
  simp [Model.hash, h]

theorem leafData_fst (m : Model) : m.partitions = m.leafData.map Prod.fst := by
  rw [partitions_eq_dfsLeaves]
  induction m with
  | leaf t l c cap => rfl
  | split bf f n p ihn ihp => simp [Model.dfsLeaves, Model.leafData, ihn, ihp]

theorem loss_eq_sum (m : Model) : m.loss = (m.leafData.map fun e => e.2.1).sum := by
  induction m with
  | leaf t l c cap => simp [Model.loss, Model.leafData]
  | split bf f n p ihn ihp => simp [Model.loss, Model.leafData, ihn, ihp]

theorem complexity_eq_sum (m : Model) :
    m.complexity = (m.leafData.map fun e => e.2.2).sum := by
  induction m with
  | leaf t l c cap => simp [Model.complexity, Model.leafData]
  | split bf f n p ihn ihp => simp [Model.complexity, Model.leafData, ihn, ihp]

/-! ### Claim theorems on canonicalization -/

/-- C1: `Model::operator==` returns `false` whenever the two hashes differ;
when the hashes agree it returns `true` exactly when the two `partitions()`
sequences have equal length and equal row-sets at every position; in
particular a leaf-count (length) mismatch is an ordinary `false` result,
not an error. -/
theorem C1_operator_eq_spec (m other : Model) :
    (m.hash ≠ other.hash → m.beq other = false)
    ∧ (m.hash = other.hash →
        (m.beq other = true ↔
          (m.partitions.length = other.partitions.length
            ∧ ∀ (i : Nat) (hi : i < m.partitions.length) (hj : i < other.partitions.length),
                m.partitions.get ⟨i, hi⟩ = other.partitions.get ⟨i, hj⟩)))
    ∧ (m.partitions.length ≠ other.partitions.length → m.beq other = false) := by
  refine ⟨?_, ?_, ?_⟩
  · intro h; simp [Model.beq, h]
  · intro h
    constructor
    · intro hb
      by_cases hlen : m.partitions.length = other.partitions.length
      · refine ⟨hlen, ?_⟩
        have hloop : eqLoop m.partitions other.partitions = true := by
          simpa [Model.beq, h, hlen] using hb
        have heq := (eqLoop_iff_eq _ _ hlen).mp hloop
        intro i hi hj
        exact List.get_of_eq heq ⟨i, hi⟩
      · simp [Model.beq, h, hlen] at hb
    · rintro ⟨hlen, hpt⟩
      have heq : m.partitions = other.partitions := List.ext_get hlen hpt
      simp [Model.beq, h, hlen, (eqLoop_iff_eq _ _ hlen).mpr heq]
  · intro hlen
    by_cases h : m.hash = other.hash
    · simp [Model.beq, h, hlen]
    · simp [Model.beq, h]

/-- C2: `Model::hash` seeds with the number of leaves and folds in each
leaf row-set's own hash in traversal order with the fixed constant
`0x9e3779b9` and shifts of the running seed (`size_t` arithmetic, mod
`2 ^ 64`); consequently two trees with equal partitions sequences hash
identically. -/
theorem C2_hash_fold_spec :
    (∀ m : Model,
        m.hash = m.partitions.foldl
          (fun seed a =>
            seed ^^^ ((Bitmask.hash a + 0x9e3779b9 + (seed <<< 6) % 2 ^ 64 + seed >>> 2) % 2 ^ 64))
          (m.partitions.length % 2 ^ 64))
    ∧ (∀ m₁ m₂ : Model, m₁.partitions = m₂.partitions → m₁.hash = m₂.hash) :=
  ⟨fun _ => rfl, fun _ _ h => hash_congr h⟩

/-- C3: `Model::partitions` returns exactly the leaf capture sets of the
depth-first, negative-child-before-positive-child traversal, in raw
traversal order (the commented-out sorting is not applied): it equals the
specification-side `dfsLeaves` traversal, and on a split node it is the
negative subtree's sequence followed by the positive subtree's. -/
theorem C3_partitions_traversal :
    (∀ m : Model, m.partitions = m.dfsLeaves)
    ∧ (∀ (bf f : Nat) (n p : Model),
        (Model.split bf f n p).partitions = n.partitions ++ p.partitions) := by
  refine ⟨partitions_eq_dfsLeaves, fun bf f n p => ?_⟩
  simp [partitions_eq_dfsLeaves, Model.dfsLeaves]

/-- C4: `Model::loss` is the sum of the leaf loss values in partitions
order (the leaf record list projects to `partitions`), an internal node's
loss is its children's sum with no stored aggregate, and the same holds
for `Model::complexity`. -/
theorem C4_loss_complexity_sum (m : Model) :
    m.partitions = m.leafData.map Prod.fst
    ∧ m.loss = (m.leafData.map fun e => e.2.1).sum
    ∧ m.complexity = (m.leafData.map fun e => e.2.2).sum
    ∧ (∀ (bf f : Nat) (n p : Model),
        (Model.split bf f n p).loss = n.loss + p.loss
        ∧ (Model.split bf f n p).complexity = n.complexity + p.complexity) :=
  ⟨leafData_fst m, loss_eq_sum m, complexity_eq_sum m,
    fun _ _ _ _ => ⟨rfl, rfl⟩⟩

/-! ### Concrete trees used as inputs for the order-sensitivity claims -/

def bmA : Bitmask := ⟨[true, false]⟩
def bmB : Bitmask := ⟨[false, true]⟩
def bmC : Bitmask := ⟨[true, true]⟩

/-- `split(A, B)` on split feature 0. -/
def treeAB : Model := .split 0 0 (.leaf 0 0 0 bmA) (.leaf 1 0 0 bmB)

/-- `split(B, A)` on a different split feature 1, same two leaf row-sets. -/
def treeBA : Model := .split 1 1 (.leaf 1 0 0 bmB) (.leaf 0 0 0 bmA)

/-- The split feature at the root, when the root is an internal node. -/
def Model.rootSplitFeature : Model → Option Nat
  | .leaf _ _ _ _ => none
  | .split bf _ _ _ => some bf

/-- C9: two trees over the same pair of distinct leaf row-sets, assembled
as `split(A, B)` and as `split(B, A)` under different split features,
compare unequal under `operator==`: equality is traversal-order
sensitive. -/
theorem C9_order_sensitive :
    bmA ≠ bmB
    ∧ treeAB.partitions = [bmA, bmB]
    ∧ treeBA.partitions = [bmB, bmA]
    ∧ treeAB.rootSplitFeature ≠ treeBA.rootSplitFeature
    ∧ treeAB.beq treeBA = false
    ∧ treeBA.beq treeAB = false := by
  decide

/-- C10: `operator==` and `hash` depend only on the ordered sequence of
leaf capture sets: trees whose partitions sequences are equal compare
equal and hash equal, whatever their split features or internal shapes. -/
theorem C10_partitions_determine (m₁ m₂ : Model) (h : m₁.partitions = m₂.partitions) :
    m₁.beq m₂ = true ∧ m₁.hash = m₂.hash := by
  have hh := hash_congr h
  have hlen : m₁.partitions.length = m₂.partitions.length := by rw [h]
  exact ⟨by simp [Model.beq, hh, hlen, (eqLoop_iff_eq _ _ hlen).mpr h], hh⟩

/-- A right-leaning tree with leaf sequence `[A, B, C]`. -/
def treeDeep₁ : Model :=
  .split 2 2 (.leaf 0 0 0 bmA) (.split 3 3 (.leaf 0 0 0 bmB) (.leaf 1 0 0 bmC))

/-- A left-leaning tree with the same leaf sequence `[A, B, C]` but
different split features and internal shape. -/
def treeDeep₂ : Model :=
  .split 4 4 (.split 5 5 (.leaf 1 0 0 bmA) (.leaf 0 0 0 bmB)) (.leaf 0 0 0 bmC)

theorem C10_witness :
    treeDeep₁.partitions = treeDeep₂.partitions
    ∧ (treeDeep₁.beq treeDeep₂ = true ∧ treeDeep₁.hash = treeDeep₂.hash) :=
  ⟨by decide, C10_partitions_determine treeDeep₁ treeDeep₂ (by decide)⟩

/-! ### The generic document type (`nlohmann::json`)

The serializer, summarizer and translator act on a generic JSON document.
`nlohmann::json` stores objects in a `std::map`, so object keys are kept
in sorted order; the non-const `operator[]` inserts a `null` value when
the key (or array index) is missing, which the functions below reproduce
explicitly. Numbers are modelled as exact rationals. -/

inductive Json where
  | null
  | bool (b : Bool)
  | num (q : ℚ)
  | str (s : String)
  | arr (elems : List Json)
  | obj (entries : List (String × Json))

/-- Structural boolean equality of documents (`json::operator==` for the
shapes this component produces: value equality, element-wise on arrays,
key-value-wise on objects). -/
def Json.beqJ : Json → Json → Bool
  | .null, .null => true
  | .bool a, .bool b => a == b
  | .num a, .num b => a == b
  | .str a, .str b => a == b
  | .arr [], .arr [] => true
  | .arr (x :: xs), .arr (y :: ys) => x.beqJ y && (Json.arr xs).beqJ (Json.arr ys)
  | .obj [], .obj [] => true
  | .obj ((k, v) :: fs), .obj ((l, w) :: gs) =>
      k == l && v.beqJ w && (Json.obj fs).beqJ (Json.obj gs)
  | _, _ => false

theorem beqJ_iff_eq : ∀ a b : Json, a.beqJ b = true ↔ a = b := by
  intro a b
  induction a, b using Json.beqJ.induct <;>
    try simp_all [Json.beqJ]
  next a b h1 h2 h3 h4 h5 h6 h7 h8 =>
    cases a <;> cases b <;> try simp_all [Json.beqJ]
    · rename_i b1 b2
      cases b1 <;> cases b2 <;> simp_all
    · rename_i xs ys
      cases xs with
      | nil =>
          cases ys with
          | nil => exact absurd rfl (h5 rfl)
          | cons y ys => simp
      | cons x xs =>
          cases ys with
          | nil => simp
          | cons y ys => exact absurd rfl (h6 x xs y ys rfl)
    · rename_i fs gs
      cases fs with
      | nil =>
          cases gs with
          | nil => exact absurd rfl (h7 rfl)
          | cons q gs => simp
      | cons p fs =>
          cases gs with
          | nil => simp
          | cons q gs =>
              obtain ⟨k, v⟩ := p
              obtain ⟨l, w⟩ := q
              exact absurd rfl (h8 k v fs l w gs rfl)

instance : DecidableEq Json := fun a b =>
  decidable_of_iff (Json.beqJ a b = true) (beqJ_iff_eq a b)

/-- `json::contains(key)`: true only on an object holding the key. -/
def Json.containsKey : Json → String → Bool
  | .obj fs, k => fs.any (fun e => e.1 = k)
  | _, _ => false

/-- Object read (`operator[]` after any insertion has happened): the value
stored at the key, `null` when absent or when the document is not an
object. -/
def Json.getObj : Json → String → Json
  | .obj fs, k =>
      match fs.find? (fun e => e.1 = k) with
      | some e => e.2
      | none => .null
  | _, _ => .null

/-- Insert-or-assign into the sorted entry list of a `std::map`-backed
object. -/
def setEntries : List (String × Json) → String → Json → List (String × Json)
  | [], k, v => [(k, v)]
  | (k₀, v₀) :: fs, k, v =>
      if k = k₀ then (k, v) :: fs
      else if k < k₀ then (k, v) :: (k₀, v₀) :: fs
      else (k₀, v₀) :: setEntries fs k v

/-- Object write (`operator[] =`): assigns at the key, inserting it in
key-sorted position; on a `null` document it first coerces the document
to an empty object, as `nlohmann::json` does. -/
def Json.setObj : Json → String → Json → Json
  | .obj fs, k, v => .obj (setEntries fs k v)
  | .null, k, v => .obj [(k, v)]
  | j, _, _ => j

/-- The side effect of reading a missing key through the non-const
`operator[]`: the key is inserted with value `null`. -/
def Json.touch (j : Json) (k : String) : Json :=
  if j.containsKey k then j else j.setObj k .null

/-- `json::erase(key)`: removes the key from an object, no-op otherwise. -/
def Json.eraseObj : Json → String → Json
  | .obj fs, k => .obj (fs.filter (fun e => e.1 != k))
  | j, _ => j

/-- Array read `operator[](i)` after any coercion: the element at `i`,
`null` out of range or on a non-array. -/
def Json.getIdx : Json → Nat → Json
  | .arr xs, i => xs.getD i .null
  | _, _ => .null

/-- Array write at an existing index. -/
def Json.setIdx : Json → Nat → Json → Json
  | .arr xs, i, v => .arr (xs.set i v)
  | j, _, _ => j

/-- The side effect of the non-const array `operator[](i)`: a `null`
document becomes an array, padded with `null`s up to index `i`. -/
def Json.ensureIdx : Json → Nat → Json
  | .null, i => .arr (List.replicate (i + 1) .null)
  | .arr xs, i =>
      if i < xs.length then .arr xs
      else .arr (xs ++ List.replicate (i + 1 - xs.length) .null)
  | j, _ => j

/-- `operator<` on two documents, for `std::max`/`std::min` in
`Model::intersect`. Only number-to-number comparisons are exercised there
(both operands are checked non-null and the numeric guards hold number
bounds); other shapes compare unordered. -/
def jlt : Json → Json → Bool
  | .num a, .num b => a < b
  | _, _ => false

/-- `std::max` over documents. -/
def jmax (a b : Json) : Json := if jlt a b then b else a

/-- `std::min` over documents. -/
def jmin (a b : Json) : Json := if jlt b a then b else a

/-- `Model::intersect` (model.cpp:144-155): combines two interval guards,
`dest[0] = max(src[0], dest[0])` and `dest[1] = min(src[1], dest[1])`,
where a null bound on one side defers to the other side's bound and the
bound stays untouched when `src`'s bound is null; the non-const reads
coerce a null guard to an array. Returns the pair `(src, dest)` as left
after the call (the caller sees both, `src` by reference). -/
def intersect (src dest : Json) : Json × Json :=
  let src₀ := src.ensureIdx 0
  let p₀ : Json × Json :=
    if (src₀.getIdx 0) ≠ Json.null then
      let dest₀ := dest.ensureIdx 0
      if (dest₀.getIdx 0) ≠ Json.null then
        (src₀, dest₀.setIdx 0 (jmax (src₀.getIdx 0) (dest₀.getIdx 0)))
      else
        (src₀, dest₀.setIdx 0 (src₀.getIdx 0))
    else (src₀, dest)
  let src₁ := p₀.1.ensureIdx 1
  if (src₁.getIdx 1) ≠ Json.null then
    let dest₁ := p₀.2.ensureIdx 1
    if (dest₁.getIdx 1) ≠ Json.null then
      (src₁, dest₁.setIdx 1 (jmin (src₁.getIdx 1) (dest₁.getIdx 1)))
    else
      (src₁, dest₁.setIdx 1 (src₁.getIdx 1))
  else (src₁, p₀.2)

/-- `json::begin()/end()` iteration: an array iterates its elements, an
object its values, null iterates nothing, another primitive yields itself
once. -/
def Json.iterate : Json → List Json
  | .arr xs => xs
  | .obj fs => fs.map Prod.snd
  | .null => []
  | j => [j]

/-- One entry of the promotion loop of `Model::summarize`
(model.cpp:186-210): when the child is itself a split on the same feature,
its grandchildren are promoted into the current node's child list (with
guard intersection on numeric domains, guards kept as-is on categorical
domains, and dropped grandchildren when no domain type matches);
otherwise the child is re-inserted unpromoted. -/
def promoteEntry (nodeFeature : Json) (integral rational categorical : Bool)
    (entry : Json) : List Json :=
  let entry₁ := entry.touch "in"
  let condition := entry₁.getObj "in"
  let entry₂ := entry₁.touch "then"
  let child := entry₂.getObj "then"
  if child.containsKey "feature" ∧ child.getObj "feature" = nodeFeature then
    let child₁ := child.touch "children"
    let step := fun (st : Json × List Json) (subEntry : Json) =>
      let subEntry₁ := subEntry.touch "in"
      let subcondition := subEntry₁.getObj "in"
      let subEntry₂ := subEntry₁.touch "then"
      let grandchild := subEntry₂.getObj "then"
      if integral || rational then
        let sc := (subcondition.ensureIdx 0).ensureIdx 1
        let promoted := Json.arr [sc.getIdx 0, sc.getIdx 1]
        let res := intersect st.1 promoted
        (res.1, st.2 ++ [Json.obj [("in", res.2), ("then", grandchild)]])
      else if categorical then
        (st.1, st.2 ++ [Json.obj [("in", subcondition), ("then", grandchild)]])
      else (st.1, st.2)
    ((child₁.getObj "children").iterate.foldl step (condition, [])).2
  else
    [Json.obj [("in", condition), ("then", child)]]

/-- The non-recursive body of `Model::summarize` on a split node
(model.cpp:158-211), applied to the already-summarized children: builds
the two candidate children with guards derived from the feature's domain
type, erases the binary-split fields, and runs the promotion loop. -/
def summarizeStep (j tSum fSum : Json) : Json :=
  let j₁ := (j.setObj "true" tSum).setObj "false" fSum
  let j₂ := j₁.touch "type"
  let ty := j₂.getObj "type"
  let integral := ty == Json.str "integral"
  let rational := ty == Json.str "rational"
  let categorical := ty == Json.str "categorical"
  let tchild := j₂.getObj "true"
  let fchild := j₂.getObj "false"
  let p :=
    if integral || rational then
      let j₃ := j₂.touch "reference"
      let ref := j₃.getObj "reference"
      (j₃, [Json.obj [("in", Json.arr [ref, Json.null]), ("then", tchild)],
            Json.obj [("in", Json.arr [Json.null, ref]), ("then", fchild)]])
    else if categorical then
      let j₃ := j₂.touch "reference"
      let ref := j₃.getObj "reference"
      (j₃, [Json.obj [("in", ref), ("then", tchild)],
            Json.obj [("in", Json.str "default"), ("then", fchild)]])
    else
      (j₂, [Json.obj [("then", tchild)], Json.obj [("then", fchild)]])
  let j₄ := p.1.setObj "children" (Json.arr p.2)
  let j₅ := (((j₄.eraseObj "reference").eraseObj "relation").eraseObj "true").eraseObj "false"
  let nodeFeature := j₅.getObj "feature"
  let entries := (j₅.getObj "children").iterate
  let newChildren := entries.foldl
    (fun acc e => acc ++ promoteEntry nodeFeature integral rational categorical e) []
  j₅.setObj "children" (Json.arr newChildren)

theorem sizeOf_getObj_lt (fs : List (String × Json)) (k : String) :
    sizeOf (Json.getObj (Json.obj fs) k) < sizeOf (Json.obj fs) := by
  induction fs with
  | nil => simp [Json.getObj, List.find?]
  | cons e fs ih =>
      obtain ⟨k₀, v₀⟩ := e
      by_cases h : k₀ = k
      · simp only [Json.getObj, List.find?, decide_eq_true h]
        simp
        omega
      · simp only [Json.getObj, List.find?, decide_eq_false h]
        simp only [Json.getObj] at ih
        have hle : sizeOf (Json.obj fs) ≤ sizeOf (Json.obj ((k₀, v₀) :: fs)) := by
          simp
        omega

theorem sizeOf_getObj_lt_of_contains (j : Json) (k l : String)
    (h : j.containsKey k = true) : sizeOf (j.getObj l) < sizeOf j := by
  cases j <;> first
    | exact sizeOf_getObj_lt _ l
    | simp [Json.containsKey] at h

/-- `Model::summarize` (model.cpp:157-216): post-order rewrite of a split
document into an N-ary node; a document without a "feature" key is left
unchanged. The recursive calls `summarize(node["true"])` and
`summarize(node["false"])` read (and on a missing key insert) the two
subtrees, which `summarizeStep`'s first writes reproduce. -/
def summarize : Json → Json
  | Json.obj fs =>
      if (Json.obj fs).containsKey "feature" then
        summarizeStep (Json.obj fs)
          (summarize ((Json.obj fs).getObj "true"))
          (summarize ((Json.obj fs).getObj "false"))
      else Json.obj fs
  | j => j
termination_by j => sizeOf j
decreasing_by
  · exact sizeOf_getObj_lt fs "true"
  · exact sizeOf_getObj_lt fs "false"

/-- A document without a "feature" key is left unchanged by `summarize`
(the leaf branch at model.cpp:212-215, and non-object documents). -/
theorem summarize_no_feature (j : Json) (h : j.containsKey "feature" = false) :
    summarize j = j := by
  cases j <;> simp [summarize, h]

/-- An optional numeric interval bound rendered as a document value. -/
def optJ : Option ℚ → Json
  | none => .null
  | some q => .num q

/-- The specification-side merge of two lower bounds: the maximum of the
two when both are finite, a null bound deferring to the other side,
both-null staying null. -/
def mergeLower : Option ℚ → Option ℚ → Option ℚ
  | some x, some y => some (max x y)
  | some x, none => some x
  | none, d => d

/-- The specification-side merge of two upper bounds: the minimum of the
two when both are finite, a null bound deferring to the other side,
both-null staying null. -/
def mergeUpper : Option ℚ → Option ℚ → Option ℚ
  | some x, some y => some (min x y)
  | some x, none => some x
  | none, d => d

theorem jmax_num (x y : ℚ) : jmax (Json.num x) (Json.num y) = Json.num (max x y) := by
  by_cases h : x < y
  · simp [jmax, jlt, h, max_eq_right (le_of_lt h)]
  · simp [jmax, jlt, h, max_eq_left (not_lt.mp h)]

theorem jmin_num (x y : ℚ) : jmin (Json.num x) (Json.num y) = Json.num (min x y) := by
  by_cases h : y < x
  · simp [jmin, jlt, h, min_eq_right (le_of_lt h)]
  · simp [jmin, jlt, h, min_eq_left (not_lt.mp h)]

/-- C5: on an ordered numeric (integral or rational) split, the rewritten
node's "true" child receives the guard `[reference, null]` and the
"false" child the guard `[null, reference]`; and guard intersection
during grandchild promotion takes the maximum of the lower bounds and the
minimum of the upper bounds, a null bound on either side deferring to the
other side's value, and both-null staying null. -/
theorem C5_numeric_guards :
    (∀ (f r td fd : Json) (ty : String),
        (ty = "integral" ∨ ty = "rational") →
        td.containsKey "feature" = false →
        fd.containsKey "feature" = false →
        summarize (Json.obj [("false", fd), ("feature", f), ("reference", r),
            ("true", td), ("type", Json.str ty)])
          = Json.obj [("children", Json.arr
                [Json.obj [("in", Json.arr [r, Json.null]), ("then", td)],
                 Json.obj [("in", Json.arr [Json.null, r]), ("then", fd)]]),
              ("feature", f), ("type", Json.str ty)])
    ∧ (∀ a b c d : Option ℚ,
        (intersect (Json.arr [optJ a, optJ b]) (Json.arr [optJ c, optJ d])).2
          = Json.arr [optJ (mergeLower a c), optJ (mergeUpper b d)]) := by
  constructor
  · intro f r td fd ty hty htd hfd
    have ht := summarize_no_feature td htd
    have hf := summarize_no_feature fd hfd
    have htd' := htd; have hfd' := hfd
    simp only [Json.containsKey] at htd' hfd'
    rcases hty with h | h <;> subst h <;>
      simp +decide [summarize, summarizeStep, promoteEntry, Json.getObj, Json.setObj,
        setEntries, Json.touch, Json.containsKey, Json.eraseObj, Json.iterate,
        List.find?, Json.getIdx, Json.ensureIdx, intersect, ht, hf, htd', hfd']
  · intro a b c d
    cases a <;> cases b <;> cases c <;> cases d <;>
      simp [intersect, optJ, mergeLower, mergeUpper, Json.ensureIdx, Json.getIdx,
        Json.setIdx, jmax_num, jmin_num]

/-! ### Concrete documents for the summarizer claims -/

def leafTrueDoc : Json := Json.obj [("prediction", Json.num 1)]
def leafFalseDoc : Json := Json.obj [("prediction", Json.num 0)]

/-- A binary split document with numeric domain metadata, as the
summarizer expects it. -/
def binarySplitDoc : Json :=
  Json.obj [("false", leafFalseDoc), ("feature", Json.num 1),
            ("reference", Json.num 5), ("true", leafTrueDoc),
            ("type", Json.str "integral")]

/-- The result of summarizing `binarySplitDoc` once. -/
def summarizedOnce : Json :=
  Json.obj [("children", Json.arr
      [Json.obj [("in", Json.arr [Json.num 5, Json.null]), ("then", leafTrueDoc)],
       Json.obj [("in", Json.arr [Json.null, Json.num 5]), ("then", leafFalseDoc)]]),
    ("feature", Json.num 1), ("type", Json.str "integral")]

/-- The result of summarizing `binarySplitDoc` twice: the second pass
overwrites the children with two fresh objects whose subtrees are the
re-inserted `null`s of the already-erased "true"/"false" keys. -/
def summarizedTwice : Json :=
  Json.obj [("children", Json.arr
      [Json.obj [("in", Json.arr [Json.null, Json.null]), ("then", Json.null)],
       Json.obj [("in", Json.arr [Json.null, Json.null]), ("then", Json.null)]]),
    ("feature", Json.num 1), ("type", Json.str "integral")]

theorem summarize_binarySplitDoc : summarize binarySplitDoc = summarizedOnce := by
  simp +decide [binarySplitDoc, leafTrueDoc, leafFalseDoc, summarizedOnce, summarize,
    summarizeStep, promoteEntry, Json.getObj, Json.setObj, setEntries, Json.touch,
    Json.containsKey, Json.eraseObj, Json.iterate, List.find?, Json.getIdx,
    Json.ensureIdx, intersect]

theorem summarize_summarizedOnce : summarize summarizedOnce = summarizedTwice := by
  simp +decide [summarizedOnce, summarizedTwice, leafTrueDoc, leafFalseDoc, summarize,
    summarizeStep, promoteEntry, Json.getObj, Json.setObj, setEntries, Json.touch,
    Json.containsKey, Json.eraseObj, Json.iterate, List.find?, Json.getIdx,
    Json.ensureIdx, intersect, jmax_num, jmin_num]

/-- C6 counterexample: running `summarize` a second time on an
already-summarized document whose feature is not re-split (both children
are leaves) does not leave it unchanged — the second pass rebuilds the
"children" array from the no-longer-present "true"/"false" keys. -/
theorem C6_counterexample :
    summarize (summarize binarySplitDoc) ≠ summarize binarySplitDoc := by
  rw [summarize_binarySplitDoc, summarize_summarizedOnce]
  simp [summarizedOnce, summarizedTwice, leafTrueDoc]

/-- C6 (amended): `summarize` is idempotent only on documents without a
"feature" key (leaf documents and non-objects), which it leaves
unchanged; a second application to an already-summarized split document
rewrites it again instead of leaving it unchanged. -/
theorem C6_idempotent_no_feature (j : Json) (h : j.containsKey "feature" = false) :
    summarize j = j :=
  summarize_no_feature j h

theorem C6_witness :
    Json.containsKey leafTrueDoc "feature" = false
    ∧ summarize leafTrueDoc = leafTrueDoc :=
  ⟨by decide, C6_idempotent_no_feature leafTrueDoc (by decide)⟩

/-! ### The index translator (`Model::translate_json`, model.cpp:250-285)

A translation table (`translation_type`) is an ordered sequence of signed
integers. All failures are modelled with `Except`: `std::out_of_range`
from `std::vector::at`, the `type_error` of a numeric cast on a
non-number, and — marked explicitly — the undefined behavior of reading
the uninitialized `normal_index` at model.cpp:263/270 when a split node's
feature id is found in the main table under neither sign. -/

inductive TransError where
  /-- `std::vector::at` raised `std::out_of_range`. -/
  | outOfRange
  /-- a numeric cast was applied to a non-number document value. -/
  | typeError
  /-- `normal_index` was read while uninitialized (model.cpp:263 declares
  it without a value and neither branch of the lookup assigns it):
  undefined behavior in C++, marked explicitly in this embedding. -/
  | uninitializedRead
deriving DecidableEq, Repr

/-- `(int)` cast of a document value: truncation toward zero of the stored
number; a non-number raises a type error. -/
def jAsInt : Json → Except TransError Int
  | .num q => .ok (q.num.tdiv (q.den : Int))
  | _ => .error .typeError

/-- `std::vector<int>::at(i)`: the element, or `std::out_of_range`. -/
def vecAt (v : List Int) (i : Nat) : Except TransError Int :=
  match v.get? i with
  | some x => .ok x
  | none => .error .outOfRange

/-- `std::distance(begin, std::find(begin, end, x))`: the position of the
first occurrence of `x`, or the length when `x` is absent. -/
def findPos (v : List Int) (x : Int) : Nat := v.findIdx (fun y => y == x)

/-- The split-node lookup of model.cpp:264-269: the feature id is looked
up in the main table; when absent its negation is looked up instead and
the flip flag is raised; when both are absent, `normal_index` is never
assigned (`none`). -/
def featureLookup (main : List Int) (c : Int) : Option (Nat × Bool) :=
  if main.contains c then some (findPos main c, false)
  else if main.contains (-c) then some (findPos main (-c), true)
  else none

/-- An integer-valued document number. -/
def intJ (c : Int) : Json := Json.num (c : ℚ)

/-- `Model::translate_json` (model.cpp:250-285): at a leaf document node
the prediction is offset by the feature count, located by position in the
main table, replaced through the alternate table and offset back; at a
split node the feature id (or its negation, raising a flip flag) is
located in the main table, the alternate entry's sign toggles the flip
flag again, the feature id becomes the entry's absolute value, both
subtrees are translated (a missing subtree key reads as an inserted
`null`), and the "false"/"true" subtrees are swapped exactly when the
flip flag is set; any other node is left unchanged. -/
def translate_json (node : Json) (main alternative : List Int) (n_features : Nat) :
    Except TransError Json :=
  if node.containsKey "prediction" then do
    let p ← jAsInt (node.getObj "prediction")
    let cannonical_index : Int := p + (n_features : Int)
    let normal_index : Nat := findPos main cannonical_index
    let a ← vecAt alternative normal_index
    let alternative_index : Int := a - (n_features : Int)
    pure (node.setObj "prediction" (intJ alternative_index))
  else if h : node.containsKey "feature" then do
    let c ← jAsInt (node.getObj "feature")
    match featureLookup main c with
    | none => Except.error TransError.uninitializedRead
    | some (normal_index, flip₀) => do
        let a ← vecAt alternative normal_index
        let flip : Bool := xor flip₀ (decide (a < 0))
        let node₁ := node.setObj "feature" (intJ (Int.natAbs a))
        let fSub ← translate_json (node.getObj "false") main alternative n_features
        let node₂ := node₁.setObj "false" fSub
        let tSub ← translate_json (node.getObj "true") main alternative n_features
        let node₃ := node₂.setObj "true" tSub
        if flip then
          let s₁ := node₃.setObj "swap" (node₃.getObj "true")
          let s₂ := s₁.setObj "true" (s₁.getObj "false")
          let s₃ := s₂.setObj "false" (s₂.getObj "swap")
          pure (s₃.eraseObj "swap")
        else pure node₃
  else pure node
termination_by sizeOf node
decreasing_by
  · exact sizeOf_getObj_lt_of_contains node "feature" "false" h
  · exact sizeOf_getObj_lt_of_contains node "feature" "true" h

theorem jAsInt_intJ (c : Int) : jAsInt (intJ c) = Except.ok c := by
  simp [jAsInt, intJ, Rat.num_intCast, Rat.den_intCast, Int.tdiv_one]

/-- C7: at a split document node, when the lookup (direct, or negated with
the flip flag raised) finds position `i` and the alternate table holds
`v` there, the translated node's feature id is `|v|`, a negative `v`
toggles the flip flag again, both subtrees are translated, and the
"false" and "true" subtrees are swapped exactly when the resulting flip
flag (`flip₀ XOR (v < 0)`) is set. -/
theorem C7_split_translate (c : Int) (main alternative : List Int) (n : Nat)
    (fd td fr tr : Json) (i : Nat) (flip₀ : Bool)
    (hL : featureLookup main c = some (i, flip₀)) (hi : i < alternative.length)
    (hf : translate_json fd main alternative n = Except.ok fr)
    (ht : translate_json td main alternative n = Except.ok tr) :
    translate_json (Json.obj [("false", fd), ("feature", intJ c), ("true", td)])
        main alternative n
      = Except.ok (Json.obj
          [("false", if xor flip₀ (decide (alternative[i] < 0)) then tr else fr),
           ("feature", intJ (Int.natAbs alternative[i])),
           ("true", if xor flip₀ (decide (alternative[i] < 0)) then fr else tr)]) := by
  have hget : alternative[i]? = some alternative[i] := List.getElem?_eq_getElem hi
  rw [translate_json.eq_def]
  simp +decide [Json.containsKey, Json.getObj, List.find?, jAsInt_intJ, hL, vecAt, hget,
    hf, ht, Json.setObj, setEntries, Json.eraseObj, List.filter, bind, Except.bind,
    pure, Except.pure]
  by_cases hx : flip₀ = decide (alternative[i] < 0) <;> simp [hx]

theorem C7_witness :
    featureLookup [-3, 7] 3 = some (0, true)
    ∧ translate_json
        (Json.obj [("false", Json.null), ("feature", intJ 3), ("true", Json.null)])
        [-3, 7] [-9, 1] 0
      = Except.ok (Json.obj
          [("false", Json.null), ("feature", intJ 9), ("true", Json.null)]) := by
  refine ⟨by decide, ?_⟩
  have hnull : translate_json Json.null [-3, 7] [-9, 1] 0 = Except.ok Json.null := by
    rw [translate_json.eq_def]
    simp [Json.containsKey, pure, Except.pure]
  simpa using C7_split_translate 3 [-3, 7] [-9, 1] 0 Json.null Json.null Json.null
    Json.null 0 true (by decide) (by decide) hnull hnull

/-- A split document whose feature id occurs in the main table under
neither sign: the input on which the C++ reads its uninitialized
`normal_index`. -/
def strandedSplitDoc : Json :=
  Json.obj [("false", leafFalseDoc), ("feature", intJ 9), ("true", leafTrueDoc)]

/-- C8: on a split node whose feature id is absent from the main table
under both signs, the C++ never assigns `normal_index` (model.cpp:263)
and then indexes the alternate table with it — undefined behavior rather
than the explicit, propagating error the spec requires. The embedding
marks this path explicitly and this theorem evaluates the code at such an
input. -/
theorem C8_uninitialized_read :
    translate_json strandedSplitDoc [1, 2] [4, 5] 0
      = Except.error TransError.uninitializedRead := by
  rw [translate_json.eq_def]
  simp +decide [strandedSplitDoc, leafFalseDoc, leafTrueDoc, Json.containsKey,
    Json.getObj, List.find?, jAsInt_intJ, featureLookup, findPos, bind, Except.bind]

end Gosdt
